import Mathlib

/-!
Shallow embedding of the `light` router (src/router.go) and proofs about
its middleware composition and scoping model.

A Go `routerContext` holds a path `pattern` (the accumulated prefix), a
pointer to a shared `http.ServeMux`, and a slice of middlewares.  We embed:

* middlewares over an abstract handler type `H` as functions `H → H`;
* the context as a record `routerContext H` whose `muxId : Nat` stands for
  the identity of the shared `*http.ServeMux` (pointer identity);
* the shared mux as a registration table `ServeMuxTable H`, the ordered
  list of `(muxId, key, handler)` registrations performed so far;
* the configuration callbacks of `Group`/`Route` (`fn func(r Router)`) as
  state transformers on the derived context and the shared table.

Go methods that mutate the receiver through its pointer (`Use`) are
embedded as functions returning the updated receiver value; methods whose
bodies never assign to the receiver's fields (`With`, `Group`, `Route`,
`Method`, `MethodFunc`, the verb helpers) take the receiver immutably,
which is the faithful translation of their source.
-/

namespace Light

/-- Embedding of Go's `routerContext` struct: the accumulated path
`pattern`, the identity of the shared embedded `*http.ServeMux`, and the
middleware slice. -/
structure routerContext (H : Type) where
  pattern : String
  muxId : Nat
  middlewares : List (H → H)

/-- Registration state of the shared `http.ServeMux`: the ordered list of
`(mux identity, key, handler)` registrations performed via `Handle`. -/
abbrev ServeMuxTable (H : Type) : Type := List (Nat × String × H)

/-- Embedding of `r.Handle(key, h)`: the shared mux records one more
registration under `key`.  Overwrite/conflict policy is the mux's own
contract; we record the registration event. -/
def Handle {H : Type} (r : routerContext H) (key : String) (h : H)
    (t : ServeMuxTable H) : ServeMuxTable H :=
  t ++ [(r.muxId, key, h)]

/-- Embedding of `NewRouter`: empty pattern, fresh mux (a fresh identity),
nil middleware slice. -/
def NewRouter (H : Type) (freshMux : Nat) : routerContext H :=
  { pattern := "", muxId := freshMux, middlewares := [] }

/-- Embedding of `(*routerContext).Use`:
`r.middlewares = append(r.middlewares, middlewares...)`, returning the
updated receiver. -/
def Use {H : Type} (r : routerContext H) (middlewares : List (H → H)) :
    routerContext H :=
  { r with middlewares := r.middlewares ++ middlewares }

/-- Embedding of `(*routerContext).With`: a new context sharing the mux and
pattern, whose middleware slice is built by appending the receiver's slice
and then the arguments onto a nil slice (a genuine copy in Go). -/
def With {H : Type} (r : routerContext H) (middlewares : List (H → H)) :
    routerContext H :=
  { pattern := r.pattern, muxId := r.muxId,
    middlewares := [] ++ r.middlewares ++ middlewares }

/-- Embedding of `(*routerContext).Group`: build the derived context `nr`
(same pattern, same mux, middleware slice copied from the receiver), call
`fn(nr)`, and return the configured context.  `fn` may mutate `nr` and the
shared table, hence its type. -/
def Group {H : Type} (r : routerContext H)
    (fn : routerContext H → ServeMuxTable H → routerContext H × ServeMuxTable H)
    (t : ServeMuxTable H) : routerContext H × ServeMuxTable H :=
  let nr : routerContext H :=
    { pattern := r.pattern, muxId := r.muxId,
      middlewares := [] ++ r.middlewares }
  fn nr t

/-- Embedding of `(*routerContext).Route`: as `Group`, but the derived
context's pattern is `fmt.Sprintf("%s%s", r.pattern, pattern)`, i.e. raw
string concatenation. -/
def Route {H : Type} (r : routerContext H) (pattern : String)
    (fn : routerContext H → ServeMuxTable H → routerContext H × ServeMuxTable H)
    (t : ServeMuxTable H) : routerContext H × ServeMuxTable H :=
  let nr : routerContext H :=
    { pattern := r.pattern ++ pattern, muxId := r.muxId,
      middlewares := [] ++ r.middlewares }
  fn nr t

/-- Embedding of the wrapping loop in `Method`:
`for i := len(r.middlewares) - 1; i >= 0; i-- { h = r.middlewares[i](h) }`.
Indices descending over the slice is a left fold over the reversed list. -/
def composeLoop {H : Type} (middlewares : List (H → H)) (h : H) : H :=
  middlewares.reverse.foldl (fun acc m => m acc) h

/-- Embedding of `(*routerContext).Method`: wrap `h` by the loop, build the
key (`"METHOD "` ++ pattern when the method is non-empty, bare pattern when
it is empty), and register on the shared mux. -/
def Method {H : Type} (r : routerContext H) (method pat : String) (h : H)
    (t : ServeMuxTable H) : ServeMuxTable H :=
  let h2 := composeLoop r.middlewares h
  let methodPart := if method ≠ "" then method ++ " " else method
  Handle r (methodPart ++ r.pattern ++ pat) h2 t

/-- Embedding of `(*routerContext).MethodFunc`: delegates to `Method`
unchanged (in Go, `http.HandlerFunc` is passed where an `http.Handler` is
expected; both are the abstract handler type `H` here). -/
def MethodFunc {H : Type} (r : routerContext H) (method pat : String) (h : H)
    (t : ServeMuxTable H) : ServeMuxTable H :=
  Method r method pat h t

/-- The `net/http` method constant `http.MethodConnect`. -/
def MethodConnect : String := "CONNECT"

/-- The `net/http` method constant `http.MethodDelete`. -/
def MethodDelete : String := "DELETE"

/-- The `net/http` method constant `http.MethodGet`. -/
def MethodGet : String := "GET"

/-- The `net/http` method constant `http.MethodHead`. -/
def MethodHead : String := "HEAD"

/-- The `net/http` method constant `http.MethodOptions`. -/
def MethodOptions : String := "OPTIONS"

/-- The `net/http` method constant `http.MethodPatch`. -/
def MethodPatch : String := "PATCH"

/-- The `net/http` method constant `http.MethodPost`. -/
def MethodPost : String := "POST"

/-- The `net/http` method constant `http.MethodPut`. -/
def MethodPut : String := "PUT"

/-- The `net/http` method constant `http.MethodTrace`. -/
def MethodTrace : String := "TRACE"

/-- Embedding of `(*routerContext).Connect`. -/
def Connect {H : Type} (r : routerContext H) (pat : String) (h : H)
    (t : ServeMuxTable H) : ServeMuxTable H :=
  MethodFunc r MethodConnect pat h t

/-- Embedding of `(*routerContext).Delete`. -/
def Delete {H : Type} (r : routerContext H) (pat : String) (h : H)
    (t : ServeMuxTable H) : ServeMuxTable H :=
  MethodFunc r MethodDelete pat h t

/-- Embedding of `(*routerContext).Get`. -/
def Get {H : Type} (r : routerContext H) (pat : String) (h : H)
    (t : ServeMuxTable H) : ServeMuxTable H :=
  MethodFunc r MethodGet pat h t

/-- Embedding of `(*routerContext).Head`. -/
def Head {H : Type} (r : routerContext H) (pat : String) (h : H)
    (t : ServeMuxTable H) : ServeMuxTable H :=
  MethodFunc r MethodHead pat h t

/-- Embedding of `(*routerContext).Options`. -/
def Options {H : Type} (r : routerContext H) (pat : String) (h : H)
    (t : ServeMuxTable H) : ServeMuxTable H :=
  MethodFunc r MethodOptions pat h t

/-- Embedding of `(*routerContext).Patch`. -/
def Patch {H : Type} (r : routerContext H) (pat : String) (h : H)
    (t : ServeMuxTable H) : ServeMuxTable H :=
  MethodFunc r MethodPatch pat h t

/-- Embedding of `(*routerContext).Post`. -/
def Post {H : Type} (r : routerContext H) (pat : String) (h : H)
    (t : ServeMuxTable H) : ServeMuxTable H :=
  MethodFunc r MethodPost pat h t

/-- Embedding of `(*routerContext).Put`. -/
def Put {H : Type} (r : routerContext H) (pat : String) (h : H)
    (t : ServeMuxTable H) : ServeMuxTable H :=
  MethodFunc r MethodPut pat h t

/-- Embedding of `(*routerContext).Trace`. -/
def Trace {H : Type} (r : routerContext H) (pat : String) (h : H)
    (t : ServeMuxTable H) : ServeMuxTable H :=
  MethodFunc r MethodTrace pat h t

/-- Nested right-to-left composition stated by the spec: the chain
`[m1, ..., mn]` applied to `h` as `m1 (m2 (... (mn h)))`. -/
def composeNested {H : Type} (middlewares : List (H → H)) (h : H) : H :=
  middlewares.foldr (fun m acc => m acc) h

/-- The descending-index wrapping loop of `Method` computes exactly the
nested composition `m1 (m2 (... (mn h)))`. -/
lemma composeLoop_eq_nested {H : Type} (middlewares : List (H → H)) (h : H) :
    composeLoop middlewares h = composeNested middlewares h := by
  simp [composeLoop, composeNested, List.foldl_reverse]

/-- Unfolding lemma: the head of the chain (the first-added middleware) is
applied outermost. -/
lemma composeNested_cons {H : Type} (m : H → H) (ms : List (H → H)) (h : H) :
    composeNested (m :: ms) h = m (composeNested ms h) := rfl

/-- C1: `Method` installs the composed handler `m1 (m2 (... (mn h)))` for a
chain `[m1, ..., mn]`: the descending loop applies the chain from
last-added to first-added, so the first-added middleware is outermost while
the last-added middleware is closest to `h`; the unfolding conjunct
exhibits the first-added middleware as the outermost wrapper. -/
theorem Method_installs_nested_composition {H : Type}
    (r : routerContext H) (method pat : String) (h : H) (t : ServeMuxTable H) :
    (Method r method pat h t =
      Handle r ((if method ≠ "" then method ++ " " else method) ++ r.pattern ++ pat)
        (composeNested r.middlewares h) t)
    ∧ (∀ (m1 : H → H) (ms : List (H → H)) (h0 : H),
        composeNested (m1 :: ms) h0 = m1 (composeNested ms h0)) := by
  constructor
  · simp [Method, composeLoop_eq_nested]
  · intro m1 ms h0
    rfl

/-- C2: derivation copies the chain by value.  The child built by `With`,
`Group`, or `Route` carries exactly the parent's chain contents at the
moment of derivation (plus, for `With`, the supplied middlewares appended);
`Use` on any context yields a context whose chain is its own chain with the
arguments appended, and every derived chain is fully determined by the
parent's chain at derivation time, so later appends on one side cannot
reach the other. -/
theorem chains_copy_on_derive {H : Type} (r : routerContext H)
    (ms msP msC : List (H → H)) :
    ((With r ms).middlewares = r.middlewares ++ ms)
    ∧ (∀ (fn : routerContext H → ServeMuxTable H → routerContext H × ServeMuxTable H)
        (t : ServeMuxTable H),
        Group r fn t = fn ⟨r.pattern, r.muxId, r.middlewares⟩ t)
    ∧ (∀ (pat : String)
        (fn : routerContext H → ServeMuxTable H → routerContext H × ServeMuxTable H)
        (t : ServeMuxTable H),
        Route r pat fn t = fn ⟨r.pattern ++ pat, r.muxId, r.middlewares⟩ t)
    ∧ ((Use r msP).middlewares = r.middlewares ++ msP)
    ∧ ((Use (With r ms) msC).middlewares = r.middlewares ++ ms ++ msC)
    ∧ ((Use (With r ms) msC).pattern = r.pattern
        ∧ (Use r msP).pattern = r.pattern) := by
  refine ⟨by simp [With], ?_, ?_, by simp [Use], by simp [Use, With], by simp [Use, With], by simp [Use]⟩
  · intro fn t
    simp [Group]
  · intro pat fn t
    simp [Route]

/-- C3: `With` is non-mutating on the receiver (its embedding neither
updates the receiver value nor touches the table) and returns a new context
with the receiver's pattern, the same shared mux instance, and the
receiver's chain with the arguments appended in order. -/
theorem With_derives_sharing_and_appends {H : Type} (r : routerContext H)
    (ms : List (H → H)) :
    (With r ms).pattern = r.pattern
    ∧ (With r ms).muxId = r.muxId
    ∧ (With r ms).middlewares = r.middlewares ++ ms := by
  refine ⟨rfl, rfl, by simp [With]⟩

/-- C4: `Route` derives a context whose pattern is the raw concatenation of
the receiver's pattern and the argument (no normalization), and a route
registered on the derived context is installed under the concatenated
pattern; in particular `Route "/v1"` containing `Get "/health"` on a fresh
router registers under the key `"GET /v1/health"`, not `"GET /health"`. -/
theorem Route_concatenates_raw {H : Type} (r : routerContext H)
    (p q method : String) (h : H) (h0 : H) (t t0 : ServeMuxTable H) :
    (∀ (fn : routerContext H → ServeMuxTable H → routerContext H × ServeMuxTable H),
        Route r p fn t = fn ⟨r.pattern ++ p, r.muxId, r.middlewares⟩ t)
    ∧ ((Route r p (fun c s => (c, Method c method q h s)) t).2
        = t ++ [(r.muxId,
                 (if method ≠ "" then method ++ " " else method) ++ (r.pattern ++ p) ++ q,
                 composeNested r.middlewares h)])
    ∧ ((Route (NewRouter H 0) "/v1" (fun c s => (c, Get c "/health" h0 s)) t0).2
        = t0 ++ [(0, "GET /v1/health", h0)]) := by
  refine ⟨?_, ?_, ?_⟩
  · intro fn
    simp [Route]
  · simp [Route, Method, Handle, composeLoop_eq_nested]
  · simp [Route, NewRouter, Get, MethodFunc, Method, MethodGet, Handle, composeLoop,
      composeNested]

/-- C5: the registration key is the method followed by a single-space
delimiter and the concatenated pattern when the method is non-empty, and
exactly the concatenated pattern (no method component) when the method is
the empty string; the installed value is the composed handler. -/
theorem Method_key_formation {H : Type} (r : routerContext H)
    (method pat : String) (h : H) (t : ServeMuxTable H) :
    Method r method pat h t
      = t ++ [(r.muxId,
               if method = "" then r.pattern ++ pat
               else method ++ " " ++ (r.pattern ++ pat),
               composeLoop r.middlewares h)] := by
  by_cases hm : method = ""
  · simp [Method, Handle, hm]
  · simp [Method, Handle, hm, String.append_assoc]

/-- C6: `Use` appends the arguments in order onto the receiver's own chain
(leaving pattern and mux untouched) and only affects later registrations: a
route registered before the `Use` call keeps its handler composed with the
old chain and stays in place in the table, while a route registered after
carries the appended middlewares. -/
theorem Use_mutates_forward_only {H : Type} (r : routerContext H)
    (ms : List (H → H)) (m1 p1 m2 p2 : String) (h1 h2 : H)
    (t : ServeMuxTable H) :
    ((Use r ms).middlewares = r.middlewares ++ ms)
    ∧ ((Use r ms).pattern = r.pattern ∧ (Use r ms).muxId = r.muxId)
    ∧ (Method (Use r ms) m2 p2 h2 (Method r m1 p1 h1 t)
        = t ++ [(r.muxId, (if m1 ≠ "" then m1 ++ " " else m1) ++ r.pattern ++ p1,
                 composeNested r.middlewares h1)]
            ++ [(r.muxId, (if m2 ≠ "" then m2 ++ " " else m2) ++ r.pattern ++ p2,
                 composeNested (r.middlewares ++ ms) h2)]) := by
  refine ⟨by simp [Use], ⟨rfl, rfl⟩, ?_⟩
  simp [Method, Handle, Use, composeLoop_eq_nested]

/-- C7: creating a derived context never mutates the shared table (`With`
takes no table at all in this embedding, mirroring a body that never calls
`Handle`; `Group` and `Route` pass the table to the configuration function
untouched, so with an identity configuration the table is exactly the input
table), while explicit registration via `Method` installs exactly one
entry. -/
theorem derivation_leaves_table_unchanged {H : Type} (r : routerContext H)
    (pat method p2 : String) (h : H) (t : ServeMuxTable H) :
    ((Group r (fun c s => (c, s)) t).2 = t)
    ∧ ((Route r pat (fun c s => (c, s)) t).2 = t)
    ∧ (∀ (fn : routerContext H → ServeMuxTable H → routerContext H × ServeMuxTable H),
        Group r fn t = fn ⟨r.pattern, r.muxId, r.middlewares⟩ t)
    ∧ (∀ (fn : routerContext H → ServeMuxTable H → routerContext H × ServeMuxTable H),
        Route r pat fn t = fn ⟨r.pattern ++ pat, r.muxId, r.middlewares⟩ t)
    ∧ (Method r method p2 h t
        = t ++ [(r.muxId,
                 (if method ≠ "" then method ++ " " else method) ++ r.pattern ++ p2,
                 composeNested r.middlewares h)]) := by
  refine ⟨rfl, rfl, ?_, ?_, ?_⟩
  · intro fn
    simp [Group]
  · intro fn
    simp [Route]
  · simp [Method, Handle, composeLoop_eq_nested]

/-- C8: `Group` (and `Route`) builds one derived context with the
receiver's chain copied at call time (`Group` keeps the receiver's
pattern), hands exactly that context to the configuration function, and
returns the configuration function's result; registrations on the returned
context after configuration still carry every middleware the configuration
added. -/
theorem Group_invokes_fn_once_and_returns_it {H : Type} (r : routerContext H)
    (ms : List (H → H)) (pat method p : String) (h : H) (t : ServeMuxTable H) :
    (∀ (fn : routerContext H → ServeMuxTable H → routerContext H × ServeMuxTable H),
        Group r fn t = fn ⟨r.pattern, r.muxId, r.middlewares⟩ t)
    ∧ (∀ (fn : routerContext H → ServeMuxTable H → routerContext H × ServeMuxTable H),
        Route r pat fn t = fn ⟨r.pattern ++ pat, r.muxId, r.middlewares⟩ t)
    ∧ ((Group r (fun c s => (Use c ms, s)) t).1.middlewares = r.middlewares ++ ms)
    ∧ ((Group r (fun c s => (Use c ms, s)) t).1.pattern = r.pattern)
    ∧ (Method (Group r (fun c s => (Use c ms, s)) t).1 method p h t
        = t ++ [(r.muxId,
                 (if method ≠ "" then method ++ " " else method) ++ r.pattern ++ p,
                 composeNested (r.middlewares ++ ms) h)]) := by
  refine ⟨?_, ?_, ?_, ?_, ?_⟩
  · intro fn
    simp [Group]
  · intro fn
    simp [Route]
  · simp [Group, Use]
  · rfl
  · simp [Group, Use, Method, Handle, composeLoop_eq_nested]

/-- C9: `MethodFunc` is definitionally the same registration as `Method`,
and each per-verb helper is exactly `MethodFunc` at the corresponding
literal HTTP verb with no additional logic. -/
theorem MethodFunc_and_verbs_delegate {H : Type} (r : routerContext H)
    (method pat : String) (h : H) (t : ServeMuxTable H) :
    (MethodFunc r method pat h t = Method r method pat h t)
    ∧ (Connect r pat h t = MethodFunc r "CONNECT" pat h t)
    ∧ (Delete r pat h t = MethodFunc r "DELETE" pat h t)
    ∧ (Get r pat h t = MethodFunc r "GET" pat h t)
    ∧ (Head r pat h t = MethodFunc r "HEAD" pat h t)
    ∧ (Options r pat h t = MethodFunc r "OPTIONS" pat h t)
    ∧ (Patch r pat h t = MethodFunc r "PATCH" pat h t)
    ∧ (Post r pat h t = MethodFunc r "POST" pat h t)
    ∧ (Put r pat h t = MethodFunc r "PUT" pat h t)
    ∧ (Trace r pat h t = MethodFunc r "TRACE" pat h t) :=
  ⟨rfl, rfl, rfl, rfl, rfl, rfl, rfl, rfl, rfl, rfl⟩

/-- C10: registration leaves the receiver unchanged — its only state effect
is appending one entry to the shared table: the entries already present are
preserved in place, exactly one entry is added, and a second registration
on the same receiver still composes with the receiver's original chain
under the receiver's original pattern. -/
theorem Method_frame_on_receiver {H : Type} (r : routerContext H)
    (m1 p1 m2 p2 : String) (h1 h2 : H) (t : ServeMuxTable H) :
    ((Method r m1 p1 h1 t).take t.length = t)
    ∧ (Method r m1 p1 h1 t
        = t ++ [(r.muxId, (if m1 ≠ "" then m1 ++ " " else m1) ++ r.pattern ++ p1,
                 composeLoop r.middlewares h1)])
    ∧ (Method r m2 p2 h2 (Method r m1 p1 h1 t)
        = t ++ [(r.muxId, (if m1 ≠ "" then m1 ++ " " else m1) ++ r.pattern ++ p1,
                 composeLoop r.middlewares h1),
                (r.muxId, (if m2 ≠ "" then m2 ++ " " else m2) ++ r.pattern ++ p2,
                 composeLoop r.middlewares h2)]) := by
  refine ⟨?_, rfl, ?_⟩
  · simp [Method, Handle, List.take_left]
  · simp [Method, Handle]

end Light
